import Mathlib

/-!
Verification of the equal-loudness contour engine
(`src/utils/equal_loudness_contor_2023ISO_params.py`).

The Python source works with numpy float arrays; we embed its numerics over
exact numbers: inputs, the reference table and all interpolation arithmetic
are rationals (every float literal in the source is a rational), while the
transcendental SPL/volume formulas (`10 ** x`, `log10`) live in `ℝ` via
`Real.rpow` and `Real.logb`.

The source delegates interpolation to
`scipy.interpolate.interp1d(kind="cubic", fill_value="extrapolate")`, whose
code is not part of the repository; it is modelled here exactly: the C²
cubic spline through the knots with not-a-knot boundary conditions,
extrapolated with the boundary polynomial pieces, computed by exact
rational Gaussian elimination on the classical second-derivative (moment)
system.
-/

attribute [local semireducible] Rat.mul Rat.inv Rat.add Rat.sub Rat.ofScientific

set_option maxRecDepth 1000000
set_option maxHeartbeats 40000000

/-- The 29 standard frequencies of the ISO 2023 reference table
(`params["f"]` in the source). -/
def f_ref : List ℚ :=
  [20, 25, 31.5, 40, 50, 63, 80, 100, 125, 160, 200, 250, 315, 400, 500,
   630, 800, 1000, 1250, 1600, 2000, 2500, 3150, 4000, 5000, 6300, 8000,
   10000, 12500]

/-- Loudness growth exponents (`params["alpha_f"]`). -/
def alpha_f_ref : List ℚ :=
  [0.635, 0.602, 0.569, 0.537, 0.509, 0.482, 0.456, 0.433, 0.412, 0.391,
   0.373, 0.357, 0.343, 0.330, 0.320, 0.311, 0.303, 0.300, 0.295, 0.292,
   0.290, 0.290, 0.289, 0.289, 0.289, 0.293, 0.303, 0.323, 0.354]

/-- Linear transfer magnitudes (`params["L_U"]`). -/
def L_U_ref : List ℚ :=
  [-31.5, -27.2, -23.1, -19.3, -16.1, -13.1, -10.4, -8.2, -6.3, -4.6,
   -3.2, -2.1, -1.2, -0.5, 0.0, 0.4, 0.5, 0.0, -2.7, -4.2, -1.2, 1.4,
   2.3, 1.0, -2.3, -7.2, -11.2, -10.9, -3.5]

/-- Absolute hearing thresholds (`params["T_f"]`). -/
def T_f_ref : List ℚ :=
  [78.1, 68.7, 59.5, 51.1, 44.0, 37.5, 31.5, 26.5, 22.1, 17.9, 14.4,
   11.4, 8.6, 6.2, 4.4, 3.0, 2.2, 2.4, 3.5, 1.7, -1.3, -4.2, -6.0, -5.4,
   -1.5, 6.0, 12.6, 13.9, 12.3]

/-- Knot spacings `h i = xs (i+1) - xs i`. -/
def hsOf (xs : List ℚ) : List ℚ :=
  (List.range (xs.length - 1)).map (fun i => xs.getD (i + 1) 0 - xs.getD i 0)

/-- Right-hand sides of the interior C² moment equations:
`d i = (y (i+2) - y (i+1)) / h (i+1) - (y (i+1) - y i) / h i`. -/
def dsOf (xs ys : List ℚ) : List ℚ :=
  let h := hsOf xs
  (List.range (xs.length - 2)).map (fun i =>
    (ys.getD (i + 2) 0 - ys.getD (i + 1) 0) / h.getD (i + 1) 0
      - (ys.getD (i + 1) 0 - ys.getD i 0) / h.getD i 0)

/-- Sub-diagonal coefficient of interior moment row `i` (after the
not-a-knot corner rows have been eliminated into the first and last
interior rows). -/
def triA (h : List ℚ) (k i : ℕ) : ℚ :=
  if i = k - 1 then
    h.getD (k - 1) 0 / 6 - h.getD k 0 * h.getD k 0 / (6 * h.getD (k - 1) 0)
  else h.getD i 0 / 6

/-- Diagonal coefficient of interior moment row `i`. -/
def triB (h : List ℚ) (k i : ℕ) : ℚ :=
  if i = 0 then
    h.getD 0 0 * (h.getD 0 0 + h.getD 1 0) / (6 * h.getD 1 0)
      + (h.getD 0 0 + h.getD 1 0) / 3
  else if i = k - 1 then
    (h.getD (k - 1) 0 + h.getD k 0) / 3
      + h.getD k 0 * (h.getD (k - 1) 0 + h.getD k 0) / (6 * h.getD (k - 1) 0)
  else (h.getD i 0 + h.getD (i + 1) 0) / 3

/-- Super-diagonal coefficient of interior moment row `i`. -/
def triC (h : List ℚ) (_k i : ℕ) : ℚ :=
  if i = 0 then h.getD 1 0 / 6 - h.getD 0 0 * h.getD 0 0 / (6 * h.getD 1 0)
  else h.getD (i + 1) 0 / 6

/-- Forward sweep of the Thomas algorithm on the interior tridiagonal
system; returns the modified super-diagonal and right-hand side, most
recent entry first. -/
def triSweep (h ds : List ℚ) (k : ℕ) : List ℚ × List ℚ :=
  (List.range k).foldl (fun acc i =>
    let m := triB h k i - triA h k i * acc.1.headD 0
    (triC h k i / m :: acc.1,
     (ds.getD i 0 - triA h k i * acc.2.headD 0) / m :: acc.2)) ([], [])

/-- Back substitution of the Thomas algorithm (inputs most recent entry
first); returns the interior moments `M 1 .. M (n-2)` in knot order. -/
def triBackSub (cpRev dpRev : List ℚ) : List ℚ :=
  ((cpRev.zip dpRev).drop 1).foldl
    (fun acc cd => (cd.2 - cd.1 * acc.headD 0) :: acc) [dpRev.headD 0]

/-- Moments (second derivatives at the knots) of the not-a-knot cubic
spline through `(xs, ys)`: the two corner (third-derivative-continuity)
rows are eliminated into the neighbouring interior rows, the resulting
tridiagonal system is solved by the Thomas algorithm, and the boundary
moments are recovered from the corner rows. -/
def notKnotMoments (xs ys : List ℚ) : List ℚ :=
  let k := xs.length - 2
  let h := hsOf xs
  let sw := triSweep h (dsOf xs ys) k
  let inner := triBackSub sw.1 sw.2
  let m0 := ((h.getD 0 0 + h.getD 1 0) * inner.getD 0 0
      - h.getD 0 0 * inner.getD 1 0) / h.getD 1 0
  let mLast := ((h.getD (k - 1) 0 + h.getD k 0) * inner.getD (k - 1) 0
      - h.getD k 0 * inner.getD (k - 2) 0) / h.getD (k - 1) 0
  m0 :: inner ++ [mLast]

/-- Index of the spline piece used for query `x`: the last knot interval
starting at or left of `x`, clamped to the boundary pieces (which are also
used for extrapolation). -/
def findInterval (xs : List ℚ) (x : ℚ) : ℕ :=
  min ((xs.filter (fun a => decide (a ≤ x))).length - 1) (xs.length - 2)

/-- Evaluate the cubic spline with knots `xs`, values `ys` and moments `Ms`
at `x`, in the classical moment form. -/
def splineEvalM (xs ys Ms : List ℚ) (x : ℚ) : ℚ :=
  let i := findInterval xs x
  let x0 := xs.getD i 0
  let x1 := xs.getD (i + 1) 0
  let h := x1 - x0
  let a := (x1 - x) / h
  let b := (x - x0) / h
  Ms.getD i 0 * (a ^ 3 - a) * h ^ 2 / 6
    + Ms.getD (i + 1) 0 * (b ^ 3 - b) * h ^ 2 / 6
    + ys.getD i 0 * a + ys.getD (i + 1) 0 * b

/-- Modelled from the spec: `scipy.interpolate.interp1d(xs, ys,
kind="cubic", fill_value="extrapolate")` applied at `x` — the piecewise
cubic C² interpolant through the knots (not-a-knot boundary conditions,
scipy's choice), producing continuous values outside the knot range by
extrapolating with the boundary pieces. The scipy source is not part of
this repository. -/
def interp1d (xs ys : List ℚ) (x : ℚ) : ℚ :=
  splineEvalM xs ys (notKnotMoments xs ys) x

/-- Append the synthetic 20000 Hz anchor value: the coefficient copied from
row `mirror` of the original table (`params["alpha_f"] +
[params["alpha_f"][mirror]]` and friends, lines 305-308). -/
def mirrorExt (col : List ℚ) (mirror : ℕ) : List ℚ :=
  col ++ [col.getD mirror 0]

/-- `np.any(f_squeeze[:, p] > 12500)` (line 304): whether the extended
table is used for interpolation. -/
def useExtended (f : List ℚ) : Bool :=
  f.any (fun x => decide (12500 < x))

/-- One coefficient column as used for the queried frequencies `f`
(lines 303-327): when frequencies were supplied, cubic interpolation over
the (possibly 20000 Hz-extended) table; otherwise the table column
verbatim. -/
def coeffList (fqGiven : Bool) (f : List ℚ) (mirror : ℕ) (col : List ℚ) : List ℚ :=
  if fqGiven then
    if useExtended f then f.map (interp1d (f_ref ++ [20000]) (mirrorExt col mirror))
    else f.map (interp1d f_ref col)
  else col

/-- The quantity `A_f` of lines 329-331, for one phon level `p` and one
frequency's coefficients `T` (= `T_f`), `L` (= `L_U`), `a` (= `alpha_f`):
`0.00447 * (10 ** (0.025 * p) - 1.15) + (0.4 * 10 ** ((T + L) / 10 - 9)) ** a`. -/
noncomputable def A_f (p T L a : ℚ) : ℝ :=
  0.00447 * ((10 : ℝ) ^ ((0.025 : ℝ) * (p : ℝ)) - 1.15)
    + (0.4 * (10 : ℝ) ^ (((T : ℝ) + (L : ℝ)) / 10 - 9)) ^ ((a : ℝ))

/-- One SPL entry (lines 333-336): the closed-form
`(10 / alpha_f) * log10(A_f) - L_U + 94` for `phon > 0`, the threshold
coefficient `T_f` otherwise. -/
noncomputable def splEntry (p T L a : ℚ) : ℝ :=
  if 0 < p then (10 / (a : ℝ)) * Real.logb 10 (A_f p T L a) - (L : ℝ) + 94
  else (T : ℝ)

/-- The SPL result grid, frequencies × phon levels (`spl_squeeze` reshaped
to `out_dims`, lines 298-339). -/
noncomputable def splGrid (phon f : List ℚ) (fqGiven : Bool) (mirror : ℕ) :
    List (List ℝ) :=
  let Ts := coeffList fqGiven f mirror T_f_ref
  let Ls := coeffList fqGiven f mirror L_U_ref
  let As := coeffList fqGiven f mirror alpha_f_ref
  (List.range f.length).map (fun i =>
    phon.map (fun p => splEntry p (Ts.getD i 0) (Ls.getD i 0) (As.getD i 0)))

/-- The frequency grid returned alongside the SPL grid:
`np.tile(f.flatten(), (len(phon), 1)).T` reshaped to `out_dims`
(lines 299, 338): row `i` repeats queried frequency `f i` once per phon
level. -/
def tileT (f phon : List ℚ) : List (List ℚ) :=
  f.map (fun x => phon.map (fun _ => x))

/-- The contour engine `iso226(phon, fq, mirror)` (the `sq` flag of the
source merely applies `np.squeeze`, a rank-only reshaping of the same
data, and is not modelled). The `assert np.all(fq >= 0)` of line 33 is
modelled as an `Except.error` raised before any SPL computation; the
advisory warnings are pure prints and are modelled by the separate
predicates below. Result: `(spl, f)` grids of shape `len(fq) × len(phon)`. -/
noncomputable def iso226 (phon : List ℚ) (fq : Option (List ℚ)) (mirror : ℕ) :
    Except String (List (List ℝ) × List (List ℚ)) :=
  match fq with
  | none => .ok (splGrid phon f_ref false mirror, tileT f_ref phon)
  | some l =>
      if l.all (fun x => decide (0 ≤ x)) then
        .ok (splGrid phon l true mirror, tileT l phon)
      else
        .error "Frequencies must be greater than or equal to 0 Hz."

/-- Condition of the phon warning at lines 11-14: some loudness level
above 80 phon. -/
def warnPhonAbove80 (phon : List ℚ) : Bool :=
  phon.any (fun p => decide (80 < p))

/-- Condition under which the `elif` at lines 15-18 prints the
below-20-phon warning: no level above 80, and some level that is nonzero
and below 20. -/
def warnPhonBelow20 (phon : List ℚ) : Bool :=
  !warnPhonAbove80 phon && phon.any (fun p => decide (p ≠ 0) && decide (p < 20))

/-- `np.any((fq < 20) | (fq > 4000))` (line 21). -/
def fqOutside20to4000 (fq : List ℚ) : Bool :=
  fq.any (fun x => decide (x < 20) || decide (4000 < x))

/-- `np.any((fq < 5000) | (fq > 12500))` (line 25). -/
def fqOutside5000to12500 (fq : List ℚ) : Bool :=
  fq.any (fun x => decide (x < 5000) || decide (12500 < x))

/-- `np.any(fq > 12500)` (line 29). -/
def fqAbove12500 (fq : List ℚ) : Bool :=
  fq.any (fun x => decide (12500 < x))

/-- Condition of the frequency warning at lines 21-24 (sub-band valid only
to 90 phon). -/
def warnValidTo90 (phon fq : List ℚ) : Bool :=
  fqOutside20to4000 fq && phon.any (fun p => decide (90 < p))

/-- Condition under which the `elif` at lines 25-28 prints the
valid-to-80-phon warning. -/
def warnValidTo80 (phon fq : List ℚ) : Bool :=
  !warnValidTo90 phon fq
    && (fqOutside5000to12500 fq && phon.any (fun p => decide (80 < p)))

/-- Condition under which the `elif` at lines 29-32 prints the
above-12.5 kHz extrapolation warning. -/
def warnExtrapolated (phon fq : List ℚ) : Bool :=
  !warnValidTo90 phon fq
    && !(fqOutside5000to12500 fq && phon.any (fun p => decide (80 < p)))
    && fqAbove12500 fq

/-- The calibration formula of `normalize_loudness_direct` (line 373):
`volumes = ((a / 0.1) / (10 ** (b / 20))) * (10 ** (spl / 20))`. -/
noncomputable def volumeOfSpl (a b : ℚ) (spl : ℝ) : ℝ :=
  (((a : ℝ) / 0.1) / (10 : ℝ) ^ ((b : ℝ) / 20)) * (10 : ℝ) ^ (spl / 20)

/-- `normalize_loudness_direct(phon, fq, a, b)` (lines 349-375): runs the
contour engine (default mirror index) and maps the calibration formula
over the SPL grid. -/
noncomputable def normalize_loudness_direct (phon : List ℚ) (fq : Option (List ℚ))
    (a b : ℚ) : Except String (List (List ℝ) × List (List ℚ)) :=
  match iso226 phon fq 0 with
  | .ok (spl, freqs) => .ok (spl.map (fun row => row.map (volumeOfSpl a b)), freqs)
  | .error e => .error e

/-- Power coefficients, in the normalized variable
`t = (x - xs i) / (xs (i+1) - xs i)`, of spline piece `i` in moment form. -/
def pieceCoeffs (xs ys Ms : List ℚ) (i : ℕ) : ℚ × ℚ × ℚ × ℚ :=
  let x0 := xs.getD i 0
  let x1 := xs.getD (i + 1) 0
  let h := x1 - x0
  let y0 := ys.getD i 0
  let y1 := ys.getD (i + 1) 0
  let m0 := Ms.getD i 0
  let m1 := Ms.getD (i + 1) 0
  (y0, y1 - y0 - h ^ 2 / 6 * (2 * m0 + m1), h ^ 2 / 2 * m0, h ^ 2 / 6 * (m1 - m0))

/-- Value of the cubic with power coefficients `c` at `t`. -/
def pieceVal (c : ℚ × ℚ × ℚ × ℚ) (t : ℚ) : ℚ :=
  c.1 + c.2.1 * t + c.2.2.1 * t ^ 2 + c.2.2.2 * t ^ 3

/-- Positivity certificate for a cubic on `[0, 1]`: its four Bernstein
coefficients are positive. -/
def bernOk (c : ℚ × ℚ × ℚ × ℚ) : Bool :=
  decide (0 < c.1) && decide (0 < c.1 + c.2.1 / 3)
    && decide (0 < c.1 + 2 * c.2.1 / 3 + c.2.2.1 / 3)
    && decide (0 < c.1 + c.2.1 + c.2.2.1 + c.2.2.2)

/-- Certificate that every spline piece is positive on its own knot
interval. -/
def piecesOk (xs ys Ms : List ℚ) : Bool :=
  (List.range (xs.length - 1)).all (fun i => bernOk (pieceCoeffs xs ys Ms i))

/-- Coefficients of piece 0 reparametrized over the left extrapolation
range `[0, xs 0]`, in `s = x / xs 0` (so `t = beta * (s - 1)` with
`beta = xs 0 / (xs 1 - xs 0)`). -/
def leftCoeffs (xs ys Ms : List ℚ) : ℚ × ℚ × ℚ × ℚ :=
  let c := pieceCoeffs xs ys Ms 0
  let beta := xs.getD 0 0 / (xs.getD 1 0 - xs.getD 0 0)
  (c.1 - c.2.1 * beta + c.2.2.1 * beta ^ 2 - c.2.2.2 * beta ^ 3,
   c.2.1 * beta - 2 * c.2.2.1 * beta ^ 2 + 3 * c.2.2.2 * beta ^ 3,
   c.2.2.1 * beta ^ 2 - 3 * c.2.2.2 * beta ^ 3,
   c.2.2.2 * beta ^ 3)

/-- Certificate that piece 0 is positive on the left extrapolation range
`[0, xs 0]`. -/
def leftOk (xs ys Ms : List ℚ) : Bool := bernOk (leftCoeffs xs ys Ms)

/-- Certificate that the last piece is positive on the right
extrapolation ray `x ≥ last knot`: shifted to `u = t - 1 ≥ 0` the cubic
has positive constant coefficient and non-negative higher ones. -/
def rayOk (xs ys Ms : List ℚ) : Bool :=
  let c := pieceCoeffs xs ys Ms (xs.length - 2)
  decide (0 < c.1 + c.2.1 + c.2.2.1 + c.2.2.2)
    && decide (0 ≤ c.2.1 + 2 * c.2.2.1 + 3 * c.2.2.2)
    && decide (0 ≤ c.2.2.1 + 3 * c.2.2.2)
    && decide (0 ≤ c.2.2.2)

/-! Theorems. -/

/-- At the calibration SPL `b` the volume formula collapses to `a / 0.1`:
the powers of ten cancel. -/
theorem volumeOfSpl_at_calibration (a b : ℚ) :
    volumeOfSpl a b ((b : ℚ) : ℝ) = (a : ℝ) / 0.1 := by
  unfold volumeOfSpl
  exact div_mul_cancel₀ _ (ne_of_gt (Real.rpow_pos_of_pos (by norm_num) _))

/-- C1: the claim "`splToVolume(111.8)` equals `0.34` for the default
calibration" is false of the formula in the code: the cancellation of the
powers of ten leaves `calibrationGain / 0.1 = 3.4`, not the gain itself. -/
theorem C1_calibration_fixed_point_counterexample :
    volumeOfSpl 0.34 111.8 111.8 ≠ 0.34 := by
  have h : (111.8 : ℝ) = ((111.8 : ℚ) : ℝ) := by norm_num
  rw [h, volumeOfSpl_at_calibration]
  norm_num

/-- C1 (amended): applying the volume formula with the default calibration
(`gain = 0.34`, `splAtGain = 111.8`) to an SPL of `111.8` yields exactly
`3.4 = calibrationGain / 0.1`. -/
theorem C1_calibration_fixed_point_amended :
    volumeOfSpl 0.34 111.8 111.8 = 3.4 := by
  have h : (111.8 : ℝ) = ((111.8 : ℚ) : ℝ) := by norm_num
  rw [h, volumeOfSpl_at_calibration]
  norm_num

/-- C9: counterexample to "the low-range warning is reported exactly when
the phon input contains a value strictly between 0 and 20": the input
`[-5]` contains no value in `(0, 20)`, yet the code's condition
`(phon != 0) & (phon < 20)` fires on it. -/
theorem C9_phon_warning_counterexample :
    warnPhonBelow20 [-5] = true ∧ ∀ p ∈ [(-5 : ℚ)], ¬(0 < p ∧ p < 20) := by
  decide

/-- C9 (amended): the above-80 warning is reported iff some phon level
exceeds 80; the low-range warning is reported iff no level exceeds 80
(the `elif` suppresses it otherwise) and some level is nonzero and below
20 (negative levels included). -/
theorem C9_phon_warning_amended : ∀ phon : List ℚ,
    (warnPhonAbove80 phon = true ↔ ∃ p ∈ phon, 80 < p)
    ∧ (warnPhonBelow20 phon = true ↔
        (¬∃ p ∈ phon, 80 < p) ∧ ∃ p ∈ phon, p ≠ 0 ∧ p < 20) := by
  intro phon
  constructor
  · simp [warnPhonAbove80, List.any_eq_true]
  · simp [warnPhonBelow20, warnPhonAbove80, List.any_eq_true]

/-- C8: counterexample to "the extrapolation warning is reported whenever
some queried frequency exceeds 12500 Hz, regardless of the phon levels":
with `phon = [95]` the `elif` chain prints the 90-phon sub-band warning
instead. -/
theorem C8_extrapolation_warning_counterexample :
    fqAbove12500 [13000] = true ∧ warnExtrapolated [95] [13000] = false := by
  decide

/-- C8 (amended): when some queried frequency exceeds 12500 Hz the
extrapolation warning is reported iff every phon level is at most 80
(otherwise one of the sub-band accuracy warnings takes precedence in the
`elif` chain); in either case evaluation still proceeds to a numeric
result when the frequencies are non-negative. -/
theorem C8_extrapolation_warning_amended : ∀ (phon fq : List ℚ) (m : ℕ),
    fqAbove12500 fq = true →
    ((warnExtrapolated phon fq = true ↔ ∀ p ∈ phon, p ≤ 80)
     ∧ ((∀ x ∈ fq, 0 ≤ x) → ∃ r, iso226 phon (some fq) m = Except.ok r)) := by
  intro phon fq m hC
  obtain ⟨x, hx, h125⟩ : ∃ x ∈ fq, 12500 < x := by
    simpa [fqAbove12500, List.any_eq_true] using hC
  have hx4000 : (4000 : ℚ) < x := by linarith
  have h1 : fqOutside20to4000 fq = true := by
    simp only [fqOutside20to4000, List.any_eq_true]
    exact ⟨x, hx, by simp only [Bool.or_eq_true, decide_eq_true_eq]; right; linarith⟩
  have h2 : fqOutside5000to12500 fq = true := by
    simp only [fqOutside5000to12500, List.any_eq_true]
    exact ⟨x, hx, by simp only [Bool.or_eq_true, decide_eq_true_eq]; right; linarith⟩
  constructor
  · have hreduce : warnExtrapolated phon fq
        = (!phon.any (fun p => decide (90 < p)) && !phon.any (fun p => decide (80 < p))) := by
      simp [warnExtrapolated, warnValidTo90, h1, h2, hC]
    rw [hreduce]
    simp only [Bool.and_eq_true, Bool.not_eq_true', List.any_eq_false,
      decide_eq_true_eq]
    constructor
    · rintro ⟨h90, h80⟩ p hp
      exact not_lt.mp (h80 p hp)
    · intro h
      exact ⟨fun p hp => not_lt.mpr (by linarith [h p hp]),
             fun p hp => not_lt.mpr (h p hp)⟩
  · intro hpos
    have hall : fq.all (fun x => decide (0 ≤ x)) = true := by
      simp only [List.all_eq_true, decide_eq_true_eq]
      exact hpos
    refine ⟨(splGrid phon fq true m, tileT fq phon), ?_⟩
    simp [iso226, hall]

/-- C8 witness: at `phon = [40]`, `fq = [13000]` the hypothesis holds and
the extrapolation warning is reported. -/
theorem C8_extrapolation_warning_witness :
    warnExtrapolated [40] [13000] = true :=
  ((C8_extrapolation_warning_amended [40] [13000] 0 (by decide)).1).mpr
    (by decide)

/-- Row `i` of the SPL grid is the phon-indexed list of SPL entries for
queried frequency `i`. -/
theorem splGrid_row (phon f : List ℚ) (g : Bool) (m : ℕ) (i : ℕ)
    (hi : i < f.length) :
    (splGrid phon f g m).getD i []
      = phon.map (fun p =>
          splEntry p ((coeffList g f m T_f_ref).getD i 0)
            ((coeffList g f m L_U_ref).getD i 0)
            ((coeffList g f m alpha_f_ref).getD i 0)) := by
  unfold splGrid
  rw [List.getD_eq_getElem _ _ (by simpa using hi)]
  simp

/-- Entry `j` of a mapped list, for `j` in range: the function applied to
entry `j` of the original list (any defaults). -/
theorem map_getD_of_lt {α β : Type} [Inhabited β] (l : List α) (F : α → β)
    (d : β) (e : α) (j : ℕ) (hj : j < l.length) :
    (l.map F).getD j d = F (l.getD j e) := by
  rw [List.getD_eq_getElem _ _ (by simpa using hj), List.getElem_map,
    List.getD_eq_getElem _ _ hj]

/-- Entry `j` of a mapped phon list, for `j` in range. -/
theorem map_phon_getD (phon : List ℚ) (F : ℚ → ℝ) (j : ℕ)
    (hj : j < phon.length) :
    (phon.map F).getD j 0 = F (phon.getD j 0) :=
  map_getD_of_lt phon F 0 0 j hj

/-- At a non-positive phon level the SPL entry is the threshold
coefficient (the `else` branch of line 336). -/
theorem splEntry_nonpos (p T L a : ℚ) (h : ¬0 < p) :
    splEntry p T L a = (T : ℝ) := by
  simp [splEntry, h]

/-- C2: at phon level 0 the returned SPL is the `T_f` coefficient of the
queried frequency — the table column itself when no frequencies were
supplied (`coeffList false f m T_f_ref = T_f_ref` definitionally), its
cubic interpolation otherwise — never the phon>0 closed form. -/
theorem C2_zero_phon_threshold : ∀ (phon f : List ℚ) (g : Bool) (m i j : ℕ),
    i < f.length → j < phon.length → phon.getD j 0 = 0 →
    (((splGrid phon f g m).getD i []).getD j 0
        = (((coeffList g f m T_f_ref).getD i 0 : ℚ) : ℝ))
    ∧ coeffList false f m T_f_ref = T_f_ref := by
  intro phon f g m i j hi hj hp0
  refine ⟨?_, rfl⟩
  rw [splGrid_row phon f g m i hi, map_phon_getD _ _ j hj, hp0,
    splEntry_nonpos _ _ _ _ (lt_irrefl 0)]

/-- C2 witness: `evaluate(phonLevels=[0], frequencies=[1000])` returns the
interpolated threshold value. -/
theorem C2_zero_phon_threshold_witness :
    (((splGrid [0] [1000] true 0).getD 0 []).getD 0 0
        = (((coeffList true [1000] 0 T_f_ref).getD 0 0 : ℚ) : ℝ))
    ∧ coeffList false [1000] 0 T_f_ref = T_f_ref :=
  C2_zero_phon_threshold [0] [1000] true 0 0 0 (by decide) (by decide) (by decide)

/-- C10: at a strictly negative phon level the code takes the same `else`
branch as at zero phon and returns the threshold coefficient `T_f`
(direct or interpolated); the closed-form formula is applied only for
phon > 0. -/
theorem C10_negative_phon_threshold : ∀ (phon f : List ℚ) (g : Bool) (m i j : ℕ),
    i < f.length → j < phon.length → phon.getD j 0 < 0 →
    ((splGrid phon f g m).getD i []).getD j 0
      = (((coeffList g f m T_f_ref).getD i 0 : ℚ) : ℝ) := by
  intro phon f g m i j hi hj hpneg
  rw [splGrid_row phon f g m i hi, map_phon_getD _ _ j hj,
    splEntry_nonpos _ _ _ _ (by exact not_lt.mpr (le_of_lt hpneg))]

/-- C10 witness: at phon level −10 the threshold value is returned. -/
theorem C10_negative_phon_threshold_witness :
    ((splGrid [-10] [1000] true 0).getD 0 []).getD 0 0
      = (((coeffList true [1000] 0 T_f_ref).getD 0 0 : ℚ) : ℝ) :=
  C10_negative_phon_threshold [-10] [1000] true 0 0 0 (by decide) (by decide)
    (by decide)

/-- C6: a negative queried frequency makes `iso226` fail with the
assertion message before any SPL value is produced, and non-negative
frequencies never trigger that failure. -/
theorem C6_negative_frequency_rejection : ∀ (phon fq : List ℚ) (m : ℕ),
    ((∃ x ∈ fq, x < 0) →
      iso226 phon (some fq) m
        = Except.error "Frequencies must be greater than or equal to 0 Hz.")
    ∧ ((∀ x ∈ fq, 0 ≤ x) → ∃ r, iso226 phon (some fq) m = Except.ok r) := by
  intro phon fq m
  constructor
  · rintro ⟨x, hx, hneg⟩
    have hall : fq.all (fun x => decide (0 ≤ x)) = false := by
      simp only [List.all_eq_false, decide_eq_true_eq]
      exact ⟨x, hx, by simpa using not_le.mpr hneg⟩
    simp [iso226, hall]
  · intro hpos
    have hall : fq.all (fun x => decide (0 ≤ x)) = true := by
      simp only [List.all_eq_true, decide_eq_true_eq]
      exact hpos
    refine ⟨(splGrid phon fq true m, tileT fq phon), ?_⟩
    simp [iso226, hall]

/-- C6 witness: `evaluate(phonLevels=[40], frequencies=[-1])` errors, and
`frequencies=[1000]` succeeds. -/
theorem C6_negative_frequency_rejection_witness :
    iso226 [40] (some [-1]) 0
      = Except.error "Frequencies must be greater than or equal to 0 Hz."
    ∧ ∃ r, iso226 [40] (some [1000]) 0 = Except.ok r :=
  ⟨(C6_negative_frequency_rejection [40] [-1] 0).1
      ⟨-1, by simp, by norm_num⟩,
   (C6_negative_frequency_rejection [40] [1000] 0).2 (by norm_num)⟩

/-- C5: for valid inputs the engine returns the SPL grid and the frequency
grid, both of shape `len(frequencies) × len(phonLevels)`, and the
frequency grid replicates each queried frequency (in caller order) across
the phon axis. -/
theorem C5_shape_contract : ∀ (phon fq : List ℚ) (m : ℕ),
    (∀ x ∈ fq, 0 ≤ x) →
    iso226 phon (some fq) m
        = Except.ok (splGrid phon fq true m, tileT fq phon)
    ∧ (splGrid phon fq true m).length = fq.length
    ∧ (∀ row ∈ splGrid phon fq true m, row.length = phon.length)
    ∧ (tileT fq phon).length = fq.length
    ∧ (∀ row ∈ tileT fq phon, row.length = phon.length)
    ∧ (∀ i j, i < fq.length → j < phon.length →
        ((tileT fq phon).getD i []).getD j 0 = fq.getD i 0) := by
  intro phon fq m hpos
  have hall : fq.all (fun x => decide (0 ≤ x)) = true := by
    simp only [List.all_eq_true, decide_eq_true_eq]
    exact hpos
  refine ⟨by simp [iso226, hall], by simp [splGrid], ?_, by simp [tileT], ?_, ?_⟩
  · intro row hrow
    unfold splGrid at hrow
    simp only [List.mem_map, List.mem_range] at hrow
    obtain ⟨i, hi, hrow⟩ := hrow
    rw [← hrow]
    simp
  · intro row hrow
    unfold tileT at hrow
    simp only [List.mem_map] at hrow
    obtain ⟨x, hx, hrow⟩ := hrow
    rw [← hrow]
    simp
  · intro i j hi hj
    have hrow : (tileT fq phon).getD i [] = phon.map (fun _ => fq.getD i 0) := by
      simp only [tileT]
      rw [List.getD_eq_getElem _ _ (by simpa using hi)]
      simp only [List.getElem_map]
      rw [List.getD_eq_getElem _ _ hi]
    rw [hrow, map_getD_of_lt phon _ 0 0 j hj]

/-- C5 witness: `evaluate(phonLevels=[40,60,80], frequencies=[100,1000,10000])`
gives a 3 × 3 result with the frequency grid replicating the queried
frequencies. -/
theorem C5_shape_contract_witness :
    (splGrid [40, 60, 80] [100, 1000, 10000] true 0).length = 3
    ∧ ((tileT [100, 1000, 10000] [40, 60, 80]).getD 1 []).getD 2 0 = 1000 := by
  have h := C5_shape_contract [40, 60, 80] [100, 1000, 10000] 0 (by norm_num)
  refine ⟨?_, ?_⟩
  · rw [h.2.1]
    decide
  · rw [h.2.2.2.2.2 1 2 (by decide) (by decide)]
    decide

/-- The moment-form spline evaluation hits the data exactly at the left
knot of its interval: at `x = xs i` the moment terms vanish and only
`ys i` survives, whatever the moments are. -/
theorem splineEvalM_left_knot (xs ys Ms : List ℚ) (x : ℚ) (i : ℕ)
    (hfind : findInterval xs x = i) (hx : xs.getD i 0 = x)
    (hne : xs.getD (i + 1) 0 ≠ x) :
    splineEvalM xs ys Ms x = ys.getD i 0 := by
  have hsub : xs.getD (i + 1) 0 - x ≠ 0 := sub_ne_zero.mpr hne
  simp only [splineEvalM]
  rw [hfind, hx, sub_self, zero_div, div_self hsub]
  norm_num

/-- Same at the right knot of the interval. -/
theorem splineEvalM_right_knot (xs ys Ms : List ℚ) (x : ℚ) (i : ℕ)
    (hfind : findInterval xs x = i) (hx : xs.getD (i + 1) 0 = x)
    (hne : xs.getD i 0 ≠ x) :
    splineEvalM xs ys Ms x = ys.getD (i + 1) 0 := by
  have hsub : x - xs.getD i 0 ≠ 0 := sub_ne_zero.mpr (Ne.symm hne)
  simp only [splineEvalM]
  rw [hfind, hx, sub_self, zero_div, div_self hsub]
  norm_num

/-- The modelled `interp1d` interpolates: left-knot case. -/
theorem interp1d_left_knot (xs ys : List ℚ) (x : ℚ) (i : ℕ)
    (hfind : findInterval xs x = i) (hx : xs.getD i 0 = x)
    (hne : xs.getD (i + 1) 0 ≠ x) :
    interp1d xs ys x = ys.getD i 0 := by
  unfold interp1d
  exact splineEvalM_left_knot xs ys _ x i hfind hx hne

/-- The modelled `interp1d` interpolates: right-knot case. -/
theorem interp1d_right_knot (xs ys : List ℚ) (x : ℚ) (i : ℕ)
    (hfind : findInterval xs x = i) (hx : xs.getD (i + 1) 0 = x)
    (hne : xs.getD i 0 ≠ x) :
    interp1d xs ys x = ys.getD (i + 1) 0 := by
  unfold interp1d
  exact splineEvalM_right_knot xs ys _ x i hfind hx hne

/-- At each of the 29 table frequencies the interpolant over the original
table returns the corresponding column entry, for any coefficient
column. -/
theorem interp1d_f_ref_knot (col : List ℚ) : ∀ j, j < 29 →
    interp1d f_ref col (f_ref.getD j 0) = col.getD j 0 := by
  intro j hj
  interval_cases j
  all_goals first
    | exact interp1d_left_knot f_ref col _ _ (by decide) rfl (by decide)
    | exact interp1d_right_knot f_ref col _ 27 (by decide) (by decide) (by decide)

/-- Two lists agreeing in length and in every in-range `getD` entry are
equal. -/
theorem list_eq_of_getD {α : Type} [Inhabited α] (l1 l2 : List α) (d : α)
    (hlen : l1.length = l2.length)
    (h : ∀ i, i < l1.length → l1.getD i d = l2.getD i d) : l1 = l2 := by
  apply List.ext_getElem hlen
  intro i h1 h2
  have hd := h i h1
  rwa [List.getD_eq_getElem _ _ h1, List.getD_eq_getElem _ _ h2] at hd

/-- Interpolating any 29-entry column over the table at the table's own
frequencies returns the column unchanged. -/
theorem map_interp1d_f_ref (col : List ℚ) (hcol : col.length = 29) :
    f_ref.map (interp1d f_ref col) = col := by
  have hf : f_ref.length = 29 := by decide
  apply list_eq_of_getD _ _ (0 : ℚ)
  · rw [List.length_map, hcol, hf]
  · intro i hi
    rw [List.length_map, hf] at hi
    rw [map_getD_of_lt f_ref _ 0 0 i (by rw [hf]; exact hi)]
    exact interp1d_f_ref_knot col i hi

/-- C3: for every phon sequence (and any mirror index), evaluating at the
table's own 29 frequencies gives exactly the same result as evaluating
with no frequency argument: the cubic interpolant reproduces the table
columns at the table knots, so the interpolation path and the verbatim
path agree. -/
theorem C3_table_frequencies_agree : ∀ (phon : List ℚ) (m : ℕ),
    iso226 phon (some f_ref) m = iso226 phon none m := by
  intro phon m
  have hall : f_ref.all (fun x => decide (0 ≤ x)) = true := by decide
  have hext : useExtended f_ref = false := by decide
  have hcoeff : ∀ col : List ℚ, col.length = 29 →
      coeffList true f_ref m col = coeffList false f_ref m col := by
    intro col hcol
    have h1 : coeffList true f_ref m col = f_ref.map (interp1d f_ref col) := by
      simp [coeffList, hext]
    have h2 : coeffList false f_ref m col = col := rfl
    rw [h1, h2, map_interp1d_f_ref col hcol]
  have hgrid : splGrid phon f_ref true m = splGrid phon f_ref false m := by
    unfold splGrid
    rw [hcoeff T_f_ref (by decide), hcoeff L_U_ref (by decide),
      hcoeff alpha_f_ref (by decide)]
  simp only [iso226, hall, if_true]
  rw [hgrid]

/-- C4: when some queried frequency exceeds 12500 Hz every coefficient
column is interpolated over the extended 30-point table whose synthetic
20000 Hz point copies row `mirror` of the original column, and the
interpolant evaluated at exactly 20000 Hz returns that mirrored value;
otherwise the original 29-point table is used unmodified. -/
theorem C4_extended_table_mirror : ∀ (f : List ℚ) (m : ℕ) (col : List ℚ),
    col.length = 29 →
    (useExtended f = true →
      coeffList true f m col
        = f.map (interp1d (f_ref ++ [20000]) (mirrorExt col m)))
    ∧ (useExtended f = false →
      coeffList true f m col = f.map (interp1d f_ref col))
    ∧ interp1d (f_ref ++ [20000]) (mirrorExt col m) 20000 = col.getD m 0 := by
  intro f m col hlen
  refine ⟨fun h => by simp [coeffList, h], fun h => by simp [coeffList, h], ?_⟩
  have hknot := interp1d_right_knot (f_ref ++ [20000]) (mirrorExt col m) 20000 28
    (by decide) (by decide) (by decide)
  rw [hknot]
  unfold mirrorExt
  rw [List.getD_append_right col [col.getD m 0] 0 29 (by rw [hlen]), hlen]
  norm_num

/-- C4 witness: querying 13000 Hz switches to the extended table, and the
interpolated threshold coefficient at 20000 Hz is the 20 Hz row's value. -/
theorem C4_extended_table_mirror_witness :
    useExtended [13000] = true
    ∧ interp1d (f_ref ++ [20000]) (mirrorExt T_f_ref 0) 20000 = T_f_ref.getD 0 0 :=
  ⟨by decide, (C4_extended_table_mirror [13000] 0 T_f_ref (by decide)).2.2⟩

/-- Root bound: `b ^ (1/n) ≤ c` follows from `b ≤ c ^ n`. -/
theorem rpow_natInv_le (b c : ℝ) (n : ℕ) (hb : 0 ≤ b) (hc : 0 ≤ c)
    (hn : n ≠ 0) (h : b ≤ c ^ n) : b ^ (((n : ℕ) : ℝ))⁻¹ ≤ c := by
  have h1 : b ^ (((n : ℕ) : ℝ))⁻¹ ≤ (c ^ n) ^ (((n : ℕ) : ℝ))⁻¹ :=
    Real.rpow_le_rpow hb h (by positivity)
  rwa [← Real.rpow_natCast c n, ← Real.rpow_mul hc,
    mul_inv_cancel₀ (by exact_mod_cast hn), Real.rpow_one] at h1

/-- Root bound: `c ≤ b ^ (1/n)` follows from `c ^ n ≤ b`. -/
theorem le_rpow_natInv (b c : ℝ) (n : ℕ) (hc : 0 ≤ c) (hn : n ≠ 0)
    (h : c ^ n ≤ b) : c ≤ b ^ (((n : ℕ) : ℝ))⁻¹ := by
  have h1 : (c ^ n) ^ (((n : ℕ) : ℝ))⁻¹ ≤ b ^ (((n : ℕ) : ℝ))⁻¹ :=
    Real.rpow_le_rpow (by positivity) h (by positivity)
  rwa [← Real.rpow_natCast c n, ← Real.rpow_mul hc,
    mul_inv_cancel₀ (by exact_mod_cast hn), Real.rpow_one] at h1

/-- For a small positive phon level and coefficients in the regime reached
by far extrapolation (`T + L ≤ 60`, `alpha ≥ 4`) the quantity `A_f` is
negative: the first summand is at most `0.00447·(1.03 − 1.15)` and the
second at most `(1/2500)`. -/
theorem A_f_neg_of_bounds (p T L a : ℚ) (hp2 : p ≤ 1/2)
    (hTL : T + L ≤ 60) (ha : 4 ≤ a) : A_f p T L a < 0 := by
  unfold A_f
  have h1 : (10 : ℝ) ^ ((0.025 : ℝ) * (p : ℝ)) ≤ 1.03 := by
    have hexp : (0.025 : ℝ) * (p : ℝ) ≤ (((80 : ℕ) : ℝ))⁻¹ := by
      have hpr : (p : ℝ) ≤ 1/2 := by
        have := (Rat.cast_le (K := ℝ)).mpr hp2
        push_cast at this
        linarith
      push_cast
      norm_num
      linarith
    calc (10 : ℝ) ^ ((0.025 : ℝ) * (p : ℝ))
        ≤ 10 ^ (((80 : ℕ) : ℝ))⁻¹ :=
          Real.rpow_le_rpow_of_exponent_le (by norm_num) hexp
      _ ≤ 1.03 := by
          apply rpow_natInv_le 10 1.03 80 (by norm_num) (by norm_num) (by norm_num)
          norm_num
  have hE : ((T : ℝ) + (L : ℝ)) / 10 - 9 ≤ -3 := by
    have : (T : ℝ) + (L : ℝ) ≤ 60 := by exact_mod_cast hTL
    linarith
  have h3 : (10 : ℝ) ^ ((-3 : ℤ) : ℝ) = 1/1000 := by
    rw [Real.rpow_intCast]
    norm_num
  have hEa : (10 : ℝ) ^ (((T : ℝ) + (L : ℝ)) / 10 - 9) ≤ 1/1000 := by
    rw [← h3]
    exact Real.rpow_le_rpow_of_exponent_le (by norm_num) (by push_cast; linarith)
  have hu_pos : 0 < 0.4 * (10 : ℝ) ^ (((T : ℝ) + (L : ℝ)) / 10 - 9) := by
    have := Real.rpow_pos_of_pos (show (0:ℝ) < 10 by norm_num)
      (((T : ℝ) + (L : ℝ)) / 10 - 9)
    linarith
  have hu_le : 0.4 * (10 : ℝ) ^ (((T : ℝ) + (L : ℝ)) / 10 - 9) ≤ 1/2500 := by
    nlinarith
  have ha1 : (1 : ℝ) ≤ ((a : ℚ) : ℝ) := by
    have : (4 : ℝ) ≤ ((a : ℚ) : ℝ) := by exact_mod_cast ha
    linarith
  have hpow : (0.4 * (10 : ℝ) ^ (((T : ℝ) + (L : ℝ)) / 10 - 9)) ^ ((a : ℚ) : ℝ)
      ≤ (0.4 * (10 : ℝ) ^ (((T : ℝ) + (L : ℝ)) / 10 - 9)) ^ (1 : ℝ) :=
    Real.rpow_le_rpow_of_exponent_ge hu_pos (by linarith) ha1
  rw [Real.rpow_one] at hpow
  nlinarith [hpow, hu_le, h1]

/-- A cubic whose four Bernstein coefficients are positive is positive on
`[0, 1]`. -/
theorem bern_pos (c : ℚ × ℚ × ℚ × ℚ) (h : bernOk c = true) (t : ℚ)
    (h0 : 0 ≤ t) (h1 : t ≤ 1) : 0 < pieceVal c t := by
  obtain ⟨c0, c1, c2, c3⟩ := c
  simp only [bernOk, Bool.and_eq_true, decide_eq_true_eq] at h
  obtain ⟨⟨⟨hb0, hb1⟩, hb2⟩, hb3⟩ := h
  rcases eq_or_lt_of_le h0 with ht | ht
  · simp only [pieceVal, ← ht]
    norm_num
    linarith
  · have hid : pieceVal (c0, c1, c2, c3) t
        = c0 * (1 - t) ^ 3 + 3 * (c0 + c1 / 3) * (t * (1 - t) ^ 2)
          + 3 * (c0 + 2 * c1 / 3 + c2 / 3) * (t ^ 2 * (1 - t))
          + (c0 + c1 + c2 + c3) * t ^ 3 := by
      simp only [pieceVal]
      ring
    rw [hid]
    have hA : 0 ≤ (1 - t) ^ 3 := pow_nonneg (by linarith) 3
    have hB : 0 ≤ t * (1 - t) ^ 2 := mul_nonneg h0 (sq_nonneg _)
    have hC : 0 ≤ t ^ 2 * (1 - t) := mul_nonneg (sq_nonneg _) (by linarith)
    have hD : 0 < t ^ 3 := pow_pos ht 3
    have t1 : 0 ≤ c0 * (1 - t) ^ 3 := mul_nonneg hb0.le hA
    have t2 : 0 ≤ 3 * (c0 + c1 / 3) * (t * (1 - t) ^ 2) :=
      mul_nonneg (by linarith) hB
    have t3 : 0 ≤ 3 * (c0 + 2 * c1 / 3 + c2 / 3) * (t ^ 2 * (1 - t)) :=
      mul_nonneg (by linarith) hC
    have t4 : 0 < (c0 + c1 + c2 + c3) * t ^ 3 := mul_pos hb3 hD
    linarith

/-- A cubic with positive value at 1 and non-negative shifted higher
coefficients is positive on `[1, ∞)`. -/
theorem ray_pos (c : ℚ × ℚ × ℚ × ℚ)
    (h0 : 0 < c.1 + c.2.1 + c.2.2.1 + c.2.2.2)
    (h1 : 0 ≤ c.2.1 + 2 * c.2.2.1 + 3 * c.2.2.2)
    (h2 : 0 ≤ c.2.2.1 + 3 * c.2.2.2)
    (h3 : 0 ≤ c.2.2.2)
    (t : ℚ) (ht : 1 ≤ t) : 0 < pieceVal c t := by
  obtain ⟨c0, c1, c2, c3⟩ := c
  simp only at h0 h1 h2 h3
  have hu : 0 ≤ t - 1 := by linarith
  have hid : pieceVal (c0, c1, c2, c3) t
      = (c0 + c1 + c2 + c3) + (c1 + 2 * c2 + 3 * c3) * (t - 1)
        + (c2 + 3 * c3) * (t - 1) ^ 2 + c3 * (t - 1) ^ 3 := by
    simp only [pieceVal]
    ring
  rw [hid]
  have p1 : 0 ≤ (c1 + 2 * c2 + 3 * c3) * (t - 1) := mul_nonneg h1 hu
  have p2 : 0 ≤ (c2 + 3 * c3) * (t - 1) ^ 2 := mul_nonneg h2 (sq_nonneg _)
  have p3 : 0 ≤ c3 * (t - 1) ^ 3 := mul_nonneg h3 (pow_nonneg hu 3)
  linarith

/-- On its own interval the spline equals the piece cubic in the
normalized variable. -/
theorem splineEvalM_eq_pieceVal (xs ys Ms : List ℚ) (x : ℚ) (i : ℕ)
    (hfind : findInterval xs x = i)
    (hlt : xs.getD i 0 < xs.getD (i + 1) 0) :
    splineEvalM xs ys Ms x
      = pieceVal (pieceCoeffs xs ys Ms i)
          ((x - xs.getD i 0) / (xs.getD (i + 1) 0 - xs.getD i 0)) := by
  have hne : xs.getD (i + 1) 0 - xs.getD i 0 ≠ 0 := ne_of_gt (sub_pos.mpr hlt)
  simp only [splineEvalM, pieceVal, pieceCoeffs, hfind]
  generalize hX0 : xs.getD i 0 = X0
  generalize hX1 : xs.getD (i + 1) 0 = X1
  generalize ys.getD i 0 = Y0
  generalize ys.getD (i + 1) 0 = Y1
  generalize Ms.getD i 0 = M0
  generalize Ms.getD (i + 1) 0 = M1
  rw [hX0, hX1] at hne
  field_simp
  ring

/-- On the left extrapolation range the spline equals the reparametrized
piece-0 cubic in `s = x / xs 0`. -/
theorem splineEvalM_eq_leftVal (xs ys Ms : List ℚ) (x : ℚ)
    (hfind : findInterval xs x = 0)
    (hx0 : 0 < xs.getD 0 0)
    (hlt : xs.getD 0 0 < xs.getD 1 0) :
    splineEvalM xs ys Ms x
      = pieceVal (leftCoeffs xs ys Ms) (x / xs.getD 0 0) := by
  have hne : xs.getD 1 0 - xs.getD 0 0 ≠ 0 := ne_of_gt (sub_pos.mpr hlt)
  have hne0 : xs.getD 0 0 ≠ 0 := ne_of_gt hx0
  simp only [splineEvalM, pieceVal, leftCoeffs, pieceCoeffs, hfind, zero_add]
  generalize hX0 : xs.getD 0 0 = X0
  generalize hX1 : xs.getD 1 0 = X1
  generalize ys.getD 0 0 = Y0
  generalize ys.getD 1 0 = Y1
  generalize Ms.getD 0 0 = M0
  generalize Ms.getD 1 0 = M1
  rw [hX0, hX1] at hne
  rw [hX0] at hne0
  field_simp
  ring

/-- If the head of a non-empty list is at most `x`, the `≤ x` filter is
non-empty. -/
theorem filter_pos_of_getD_le (xs : List ℚ) (x : ℚ) (hne : xs ≠ [])
    (h : xs.getD 0 0 ≤ x) :
    0 < (xs.filter (fun a => decide (a ≤ x))).length := by
  cases xs with
  | nil => exact absurd rfl hne
  | cons y t =>
    rw [List.filter_cons_of_pos (by simpa using h)]
    simp

/-- In a strictly sorted list the last element kept by the `≤ x` filter
is at most `x`. -/
theorem sorted_filter_getD_le (xs : List ℚ) (hs : List.Sorted (· < ·) xs)
    (x : ℚ) :
    0 < (xs.filter (fun a => decide (a ≤ x))).length →
    xs.getD ((xs.filter (fun a => decide (a ≤ x))).length - 1) 0 ≤ x := by
  induction xs with
  | nil => intro h; simp at h
  | cons y t ih =>
    rw [List.sorted_cons] at hs
    obtain ⟨hyt, hst⟩ := hs
    by_cases hy : y ≤ x
    · rw [List.filter_cons_of_pos (by simpa using hy)]
      intro _
      simp only [List.length_cons, Nat.add_sub_cancel]
      cases hL : (t.filter (fun a => decide (a ≤ x))).length with
      | zero => simpa using hy
      | succ j =>
        rw [List.getD_cons_succ]
        have := ih hst (by omega)
        rw [hL] at this
        simpa using this
    · push_neg at hy
      have hft : t.filter (fun a => decide (a ≤ x)) = [] := by
        rw [List.filter_eq_nil_iff]
        intro z hz
        simp only [decide_eq_true_eq]
        have := hyt z hz
        intro hcon
        linarith
      rw [List.filter_cons_of_neg (by simp; linarith), hft]
      intro h
      simp at h

/-- In a strictly sorted list the first element dropped by the `≤ x`
filter exceeds `x`. -/
theorem sorted_filter_lt_getD (xs : List ℚ) (hs : List.Sorted (· < ·) xs)
    (x : ℚ) :
    (xs.filter (fun a => decide (a ≤ x))).length < xs.length →
    x < xs.getD ((xs.filter (fun a => decide (a ≤ x))).length) 0 := by
  induction xs with
  | nil => intro h; simp at h
  | cons y t ih =>
    rw [List.sorted_cons] at hs
    obtain ⟨hyt, hst⟩ := hs
    by_cases hy : y ≤ x
    · rw [List.filter_cons_of_pos (by simpa using hy)]
      intro hlt
      simp only [List.length_cons] at hlt
      rw [List.length_cons, List.getD_cons_succ]
      exact ih hst (by omega)
    · push_neg at hy
      have hft : t.filter (fun a => decide (a ≤ x)) = [] := by
        rw [List.filter_eq_nil_iff]
        intro z hz
        simp only [decide_eq_true_eq]
        have := hyt z hz
        intro hcon
        linarith
      rw [List.filter_cons_of_neg (by simp; linarith), hft]
      intro _
      simpa using hy

/-- Strictly sorted lists have strictly increasing `getD` entries. -/
theorem sorted_getD_lt (xs : List ℚ) (hs : List.Sorted (· < ·) xs)
    (i j : ℕ) (hij : i < j) (hj : j < xs.length) :
    xs.getD i 0 < xs.getD j 0 := by
  have hi : i < xs.length := lt_trans hij hj
  rw [List.getD_eq_getElem xs 0 hi, List.getD_eq_getElem xs 0 hj]
  have := hs.rel_get_of_lt (a := ⟨i, hi⟩) (b := ⟨j, hj⟩) (Fin.mk_lt_mk.mpr hij)
  simpa using this

/-- A spline whose pieces all carry positivity certificates (including the
left extrapolation range, and — unless the query is bounded by the last
knot — the right extrapolation ray) is positive at every non-negative
query point. -/
theorem splineEvalM_pos_of_certs (xs ys Ms : List ℚ)
    (hs : List.Sorted (· < ·) xs)
    (hn : 2 ≤ xs.length)
    (hx0 : 0 < xs.getD 0 0)
    (hp : piecesOk xs ys Ms = true)
    (hl : leftOk xs ys Ms = true)
    (x : ℚ) (hx : 0 ≤ x)
    (hend : x ≤ xs.getD (xs.length - 1) 0 ∨ rayOk xs ys Ms = true) :
    0 < splineEvalM xs ys Ms x := by
  have hpieces : ∀ i, i < xs.length - 1 → bernOk (pieceCoeffs xs ys Ms i) = true := by
    intro i hi
    have h := List.all_eq_true.mp hp i (List.mem_range.mpr hi)
    simpa using h
  set L := (xs.filter (fun a => decide (a ≤ x))).length with hLdef
  have hfind : findInterval xs x = min (L - 1) (xs.length - 2) := rfl
  have hLlen : L ≤ xs.length := hLdef ▸ List.length_filter_le _ _
  rcases Nat.eq_zero_or_pos L with hL0 | hLpos
  · -- x is below the first knot: left extrapolation range
    have hxle : x ≤ xs.getD 0 0 := by
      by_contra hcon
      push_neg at hcon
      have hpos := filter_pos_of_getD_le xs x
        (by intro hnil; rw [hnil] at hn; simp at hn) hcon.le
      rw [← hLdef] at hpos
      omega
    have hi0 : findInterval xs x = 0 := by rw [hfind, hL0]; omega
    have h01 : xs.getD 0 0 < xs.getD 1 0 :=
      sorted_getD_lt xs hs 0 1 (by norm_num) (by omega)
    rw [splineEvalM_eq_leftVal xs ys Ms x hi0 hx0 h01]
    have hl' : bernOk (leftCoeffs xs ys Ms) = true := hl
    exact bern_pos _ hl' _ (div_nonneg hx hx0.le) ((div_le_one hx0).mpr hxle)
  · rcases eq_or_lt_of_le hLlen with hLn | hLlt
    · -- x is at or beyond the last knot
      have hxge : xs.getD (xs.length - 1) 0 ≤ x := by
        have h := sorted_filter_getD_le xs hs x (hLdef ▸ hLpos)
        rw [← hLdef, hLn] at h
        exact h
      have hi : findInterval xs x = xs.length - 2 := by rw [hfind, hLn]; omega
      have hsucc : xs.length - 2 + 1 = xs.length - 1 := by omega
      have hlt2 : xs.getD (xs.length - 2) 0 < xs.getD (xs.length - 1) 0 :=
        sorted_getD_lt xs hs _ _ (by omega) (by omega)
      have hlt2' : xs.getD (xs.length - 2) 0 < xs.getD (xs.length - 2 + 1) 0 := by
        rw [hsucc]; exact hlt2
      have hden : 0 < xs.getD (xs.length - 2 + 1) 0 - xs.getD (xs.length - 2) 0 := by
        rw [hsucc]; linarith
      rw [splineEvalM_eq_pieceVal xs ys Ms x _ hi hlt2']
      rcases hend with hxle | hray
      · -- exactly the last knot (x ≤ last and x ≥ last)
        apply bern_pos _ (hpieces _ (by omega))
        · exact div_nonneg (by linarith) hden.le
        · rw [div_le_one hden, hsucc]
          linarith
      · -- right extrapolation ray
        have hr : rayOk xs ys Ms = true := hray
        simp only [rayOk, Bool.and_eq_true, decide_eq_true_eq] at hr
        obtain ⟨⟨⟨h0, h1⟩, h2⟩, h3⟩ := hr
        apply ray_pos _ h0 h1 h2 h3
        rw [le_div_iff₀ hden, one_mul, hsucc]
        linarith
    · -- interior: the piece left of x is L - 1
      have hle : xs.getD (L - 1) 0 ≤ x := by
        have h := sorted_filter_getD_le xs hs x (hLdef ▸ hLpos)
        rw [← hLdef] at h
        exact h
      have hltx : x < xs.getD L 0 := by
        have h := sorted_filter_lt_getD xs hs x (hLdef ▸ hLlt)
        rw [← hLdef] at h
        exact h
      have hi : findInterval xs x = L - 1 := by rw [hfind]; omega
      have hsucc : L - 1 + 1 = L := by omega
      have hlt2 : xs.getD (L - 1) 0 < xs.getD L 0 :=
        sorted_getD_lt xs hs _ _ (by omega) (by omega)
      have hlt2' : xs.getD (L - 1) 0 < xs.getD (L - 1 + 1) 0 := by
        rw [hsucc]; exact hlt2
      have hden : 0 < xs.getD (L - 1 + 1) 0 - xs.getD (L - 1) 0 := by
        rw [hsucc]; linarith
      rw [splineEvalM_eq_pieceVal xs ys Ms x _ hi hlt2']
      apply bern_pos _ (hpieces _ (by omega))
      · exact div_nonneg (by linarith) hden.le
      · rw [div_le_one hden, hsucc]
        linarith

/-- The interpolated `alpha_f` over the original 29-point table is
positive at every queried frequency in the table's use range
`[0, 12500]` (the no-extension path is only taken when every queried
frequency is at most 12500). -/
theorem interp1d_alpha_pos (x : ℚ) (hx : 0 ≤ x) (hx2 : x ≤ 12500) :
    0 < interp1d f_ref alpha_f_ref x := by
  unfold interp1d
  apply splineEvalM_pos_of_certs
  · decide
  · decide
  · decide
  · decide
  · decide
  · exact hx
  · left
    have h : f_ref.getD (f_ref.length - 1) 0 = 12500 := by decide
    rw [h]
    exact hx2

/-- The interpolated `alpha_f` over the extended 30-point table (default
mirror index 0) is positive at every non-negative queried frequency,
including the extrapolation ray beyond 20000 Hz. -/
theorem interp1d_alpha_pos_ext (x : ℚ) (hx : 0 ≤ x) :
    0 < interp1d (f_ref ++ [20000]) (mirrorExt alpha_f_ref 0) x := by
  unfold interp1d
  apply splineEvalM_pos_of_certs
  · decide
  · decide
  · decide
  · decide
  · decide
  · exact hx
  · right
    decide

/-- C7 (amended): (i) for every phon level at least 2.5 the log10
argument `A_f` is positive whatever coefficients the interpolation
produces, so evaluation yields finite SPL values at every queried
frequency; (ii) with the default mirror index the interpolated `alpha_f`
divisor is positive — hence nonzero — at every queried frequency, on both
the original-table and the extended-table interpolation paths; and
(iii) the table's own `alpha_f` column, used verbatim by the no-frequency
path, is positive. Only the positivity of `A_f` at phon levels below 2.5
fails (at far-extrapolated frequencies). -/
theorem C7_no_failure_amended :
    (∀ (p T L a : ℚ), (5/2 : ℚ) ≤ p → 0 < A_f p T L a)
    ∧ (∀ (f : List ℚ), (∀ x ∈ f, 0 ≤ x) →
        ∀ i, i < f.length → 0 < (coeffList true f 0 alpha_f_ref).getD i 0)
    ∧ (∀ al ∈ alpha_f_ref, 0 < al) := by
  refine ⟨?_, ?_, by decide⟩
  · intro p T L a hp
    unfold A_f
    have hX : (1.15 : ℝ) ≤ (10 : ℝ) ^ ((0.025 : ℝ) * (p : ℝ)) := by
      have hexp : (((16 : ℕ) : ℝ))⁻¹ ≤ (0.025 : ℝ) * (p : ℝ) := by
        have hpr : (5/2 : ℝ) ≤ (p : ℝ) := by
          have := (Rat.cast_le (K := ℝ)).mpr hp
          push_cast at this
          linarith
        push_cast
        norm_num
        linarith
      calc (1.15 : ℝ)
          ≤ (10 : ℝ) ^ (((16 : ℕ) : ℝ))⁻¹ := by
            apply le_rpow_natInv 10 1.15 16 (by norm_num) (by norm_num)
            norm_num
        _ ≤ (10 : ℝ) ^ ((0.025 : ℝ) * (p : ℝ)) :=
            Real.rpow_le_rpow_of_exponent_le (by norm_num) hexp
    have hU : 0 < (0.4 * (10 : ℝ) ^ (((T : ℝ) + (L : ℝ)) / 10 - 9)) ^ ((a : ℚ) : ℝ) := by
      apply Real.rpow_pos_of_pos
      have := Real.rpow_pos_of_pos (show (0:ℝ) < 10 by norm_num)
        (((T : ℝ) + (L : ℝ)) / 10 - 9)
      linarith
    nlinarith [hX, hU]
  · intro f hf i hi
    have hmem : f.getD i 0 ∈ f := by
      rw [List.getD_eq_getElem f 0 hi]
      exact List.getElem_mem hi
    by_cases hext : useExtended f = true
    · have hcl : coeffList true f 0 alpha_f_ref
          = f.map (interp1d (f_ref ++ [20000]) (mirrorExt alpha_f_ref 0)) := by
        simp [coeffList, hext]
      rw [hcl, map_getD_of_lt f _ 0 0 i hi]
      exact interp1d_alpha_pos_ext _ (hf _ hmem)
    · have hext' : useExtended f = false := by simpa using hext
      have hcl : coeffList true f 0 alpha_f_ref
          = f.map (interp1d f_ref alpha_f_ref) := by
        simp [coeffList, hext']
      rw [hcl, map_getD_of_lt f _ 0 0 i hi]
      apply interp1d_alpha_pos _ (hf _ hmem)
      by_contra hcon
      push_neg at hcon
      have hcontra : useExtended f = true := by
        simp only [useExtended, List.any_eq_true]
        exact ⟨f.getD i 0, hmem, by simpa using hcon⟩
      exact absurd hcontra hext

/-- C7 witness: at phon 40 with the 1 kHz table coefficients the log
argument is positive, and the interpolated alpha divisor at the queried
frequency 13000 Hz (extended-table path) is positive. -/
theorem C7_no_failure_witness :
    0 < A_f 40 2.4 0 0.3
    ∧ 0 < (coeffList true [13000] 0 alpha_f_ref).getD 0 0 :=
  ⟨C7_no_failure_amended.1 40 2.4 0 0.3 (by norm_num),
   C7_no_failure_amended.2.1 [13000] (by decide) 0 (by decide)⟩

/-- C7: counterexample to "for phon > 0 the formula's log10 argument `A_f`
is positive at every queried (non-negative) frequency": at phon 0.5 and
queried frequency 40000 Hz (valid input, handled via the extended-table
extrapolation) the interpolated coefficients give `alpha_f ≥ 4` and
`T_f + L_U ≤ 60`, making `A_f` negative, so `np.log10` is taken of a
negative number. -/
theorem C7_no_failure_counterexample :
    0 < (1/2 : ℚ)
    ∧ (∀ x ∈ [(40000 : ℚ)], 0 ≤ x)
    ∧ A_f (1/2) ((coeffList true [40000] 0 T_f_ref).getD 0 0)
        ((coeffList true [40000] 0 L_U_ref).getD 0 0)
        ((coeffList true [40000] 0 alpha_f_ref).getD 0 0) < 0 := by
  refine ⟨by norm_num, by norm_num, ?_⟩
  have hu : useExtended [(40000 : ℚ)] = true := by decide
  have hT : (coeffList true [40000] 0 T_f_ref).getD 0 0
      = interp1d (f_ref ++ [20000]) (mirrorExt T_f_ref 0) 40000 := by
    simp [coeffList, hu]
  have hL : (coeffList true [40000] 0 L_U_ref).getD 0 0
      = interp1d (f_ref ++ [20000]) (mirrorExt L_U_ref 0) 40000 := by
    simp [coeffList, hu]
  have hA : (coeffList true [40000] 0 alpha_f_ref).getD 0 0
      = interp1d (f_ref ++ [20000]) (mirrorExt alpha_f_ref 0) 40000 := by
    simp [coeffList, hu]
  rw [hT, hL, hA]
  apply A_f_neg_of_bounds
  · norm_num
  · decide
  · decide
